import Mathlib

/-!
Verification of the binary encoding and index-registry layer.

Shallow embedding of two source files:
- `src/exonum/src/encoding/float.rs` — the finite float wrappers `F32`/`F64`
  with their `Field` codec implementation and JSON boundary conversion;
- `src/src/views/metadata.rs` — `IndexType`, `BinaryAttribute`,
  `IndexMetadata` (de)serialization, `IndexesPool` and `IndexState`.

Machine floats are represented by their bit patterns as natural numbers
(an `f32` is a `Nat` below `2 ^ 32`, an `f64` a `Nat` below `2 ^ 64`);
finiteness is the IEEE 754 exponent-field test.  Byte buffers are
`List Nat` with each element a byte value.  Fallible Rust code is
modelled with `PResult`, whose `panic` constructor stands for abnormal
termination (an `assert`/`expect`/slice-index panic).
-/

set_option autoImplicit false

/-- Result of a Rust computation: `ok`, a recoverable `err`, or a `panic`
(abnormal termination). -/
inductive PResult (ε : Type) (α : Type) where
  | ok : α → PResult ε α
  | err : ε → PResult ε α
  | panic : PResult ε α
  deriving DecidableEq, Repr

/-! ## Little-endian byte helpers -/

/-- Encode `n` little-endian bytes of `v` (truncating `v` to `n` bytes, as Rust
`as uN` casts do). -/
def leBytes : Nat → Nat → List Nat
  | 0, _ => []
  | n + 1, v => (v % 256) :: leBytes n (v / 256)

/-- Decode a little-endian byte list to a natural number. -/
def natFromLE : List Nat → Nat
  | [] => 0
  | b :: rest => b + 256 * natFromLE rest

/-- Read `n` bytes from the front of a stream (little-endian integer), as
the `byteorder::ReadBytesExt` methods do; `none` models the io error on a
stream that is too short. -/
def readLE (n : Nat) (bytes : List Nat) : Option (Nat × List Nat) :=
  if n ≤ bytes.length then some (natFromLE (bytes.take n), bytes.drop n) else none

/-! ## Finite float wrappers (`float.rs`) -/

/-- IEEE 754 single precision: finite iff the 8-bit exponent field is not
all ones. -/
def f32IsFinite (b : Nat) : Bool := b / 2 ^ 23 % 2 ^ 8 ≠ 255

/-- IEEE 754 double precision: finite iff the 11-bit exponent field is not
all ones. -/
def f64IsFinite (b : Nat) : Bool := b / 2 ^ 52 % 2 ^ 11 ≠ 2047

/-- Widening conversion `f64::from(x : f32)` on bit patterns.  Every finite
`f32` is exactly representable; infinities map to infinities; NaN payloads
are shifted into the top of the `f64` mantissa with the quiet bit set. -/
def f32ToF64Bits (b : Nat) : Nat :=
  let s := b / 2 ^ 31 % 2
  let e := b / 2 ^ 23 % 2 ^ 8
  let m := b % 2 ^ 23
  if e = 255 then
    if m = 0 then s * 2 ^ 63 + 2047 * 2 ^ 52
    else s * 2 ^ 63 + 2047 * 2 ^ 52 + Nat.lor (m * 2 ^ 29) (2 ^ 51)
  else if e = 0 then
    if m = 0 then s * 2 ^ 63
    else
      let p := Nat.log2 m
      s * 2 ^ 63 + (p + 874) * 2 ^ 52 + (m - 2 ^ p) * 2 ^ (52 - p)
  else s * 2 ^ 63 + (e + 896) * 2 ^ 52 + m * 2 ^ 29

/-- Round `n / 2 ^ d` to the nearest integer, ties to even. -/
def roundTiesEven (n d : Nat) : Nat :=
  let q := n / 2 ^ d
  let r := n % 2 ^ d
  if 2 ^ d < 2 * r then q + 1
  else if 2 * r = 2 ^ d ∧ q % 2 = 1 then q + 1
  else q

/-- Narrowing cast `x as f32` for `x : f64`, on bit patterns: round to
nearest (ties to even), overflowing to infinity; `f64` subnormals underflow
to a signed zero; NaNs keep their top payload bits with the quiet bit set. -/
def f64ToF32Bits (b : Nat) : Nat :=
  let s : Nat := b / 2 ^ 63 % 2
  let e : Nat := b / 2 ^ 52 % 2 ^ 11
  let m : Nat := b % 2 ^ 52
  if e = 2047 then
    if m = 0 then s * 2 ^ 31 + 255 * 2 ^ 23
    else s * 2 ^ 31 + 255 * 2 ^ 23 + Nat.lor (m / 2 ^ 29) (2 ^ 22)
  else if e = 0 then s * 2 ^ 31
  else
    let sig := 2 ^ 52 + m
    let r : Int := (e : Int) - 1023
    if 128 ≤ r then s * 2 ^ 31 + 255 * 2 ^ 23
    else if -126 ≤ r then s * 2 ^ 31 + (r + 126).toNat * 2 ^ 23 + roundTiesEven sig 29
    else s * 2 ^ 31 + roundTiesEven sig (-(r + 97)).toNat

/-- Wrapper `F32` for the `f32` type (stored as its bit pattern). -/
structure F32 where
  value : Nat
  deriving DecidableEq, Repr

/-- Wrapper `F64` for the `f64` type (stored as its bit pattern). -/
structure F64 where
  value : Nat
  deriving DecidableEq, Repr

/-- Source `F32::try_from`: succeeds exactly on finite values. -/
def F32.tryFrom (value : Nat) : Option F32 :=
  if f32IsFinite value then some ⟨value⟩ else none

/-- Source `F32::get`. -/
def F32.get (x : F32) : Nat := x.value

/-- Source `F32::new`, that is `try_from(value).expect(..)`; the `expect` panic on a
non-finite value is modelled by `PResult.panic`. -/
def F32.new (value : Nat) : PResult Unit F32 :=
  match F32.tryFrom value with
  | some x => .ok x
  | none => .panic

/-- Source `F64::try_from`: succeeds exactly on finite values. -/
def F64.tryFrom (value : Nat) : Option F64 :=
  if f64IsFinite value then some ⟨value⟩ else none

/-- Source `F64::get`. -/
def F64.get (x : F64) : Nat := x.value

/-- Source `F64::new`, that is `try_from(value).expect(..)`. -/
def F64.new (value : Nat) : PResult Unit F64 :=
  match F64.tryFrom value with
  | some x => .ok x
  | none => .panic

/-- The error type `encoding::Error`, restricted to the variants this code produces.  The
`value` payload of `unsupportedFloat` is an `f64` bit pattern. -/
inductive EncodingError where
  | offsetOverflow
  | unsupportedFloat (position : Nat) (value : Nat)
  deriving DecidableEq, Repr

/-- Modelled from the spec: `CheckedOffset` subtraction (the Checked Offset
component is not under `src/`) — `sub(a, b)` yields the exact difference
when representable and an explicit overflow failure otherwise. -/
def checkedSub (a b : Nat) : Except EncodingError Nat :=
  if b ≤ a then .ok (a - b) else .error .offsetOverflow

/-- Body of `F32::check` after the `debug_assert_eq!` line: slice
`buffer[from..to]` (panicking when the range is invalid, as Rust slice
indexing does), decode the first 4 bytes little-endian (panicking when the
slice is shorter than 4 bytes, as `byteorder` does), and route the decoded
value through `try_from`. -/
def F32.checkRaw (buffer : List Nat) (fromOff toOff latestSegment : Nat) :
    PResult EncodingError Nat :=
  if fromOff ≤ toOff ∧ toOff ≤ buffer.length then
    let slice := (buffer.drop fromOff).take (toOff - fromOff)
    if 4 ≤ slice.length then
      let value := natFromLE (slice.take 4)
      if f32IsFinite value then .ok latestSegment
      else .err (.unsupportedFloat fromOff (f32ToF64Bits value))
    else .panic
  else .panic

/-- Source `F32::check`.  The `dbg` flag models the build configuration:
`debug_assert_eq!((to - from)?.unchecked_offset(), Self::field_size())` is
compiled in only when debug assertions are enabled, and is absent (its
operands unevaluated) otherwise. -/
def F32.check (dbg : Bool) (buffer : List Nat) (fromOff toOff latestSegment : Nat) :
    PResult EncodingError Nat :=
  if dbg then
    match checkedSub toOff fromOff with
    | .error e => .err e
    | .ok w =>
      if w = 4 then F32.checkRaw buffer fromOff toOff latestSegment else .panic
  else F32.checkRaw buffer fromOff toOff latestSegment

/-- Body of `F64::check` after the `debug_assert_eq!` line. -/
def F64.checkRaw (buffer : List Nat) (fromOff toOff latestSegment : Nat) :
    PResult EncodingError Nat :=
  if fromOff ≤ toOff ∧ toOff ≤ buffer.length then
    let slice := (buffer.drop fromOff).take (toOff - fromOff)
    if 8 ≤ slice.length then
      let value := natFromLE (slice.take 8)
      if f64IsFinite value then .ok latestSegment
      else .err (.unsupportedFloat fromOff value)
    else .panic
  else .panic

/-- Source `F64::check`, with the same `dbg` build-configuration flag as
`F32.check`. -/
def F64.check (dbg : Bool) (buffer : List Nat) (fromOff toOff latestSegment : Nat) :
    PResult EncodingError Nat :=
  if dbg then
    match checkedSub toOff fromOff with
    | .error e => .err e
    | .ok w =>
      if w = 8 then F64.checkRaw buffer fromOff toOff latestSegment else .panic
  else F64.checkRaw buffer fromOff toOff latestSegment

/-! ## JSON boundary of `F32` (`float.rs`, `ExonumJson`) -/

/-- A JSON value as seen by `deserialize_field`: either a number (carrying
the `f64` bit pattern that `Value::as_f64` yields for it) or any other JSON
value, for which `as_f64` is absent. -/
inductive JsonValue where
  | number (bits : Nat)
  | nonNumber
  deriving DecidableEq, Repr

/-- Source `serde_json::Value::as_f64`. -/
def JsonValue.asF64 : JsonValue → Option Nat
  | .number b => some b
  | .nonNumber => none

/-- The boxed string errors of the `ExonumJson` implementation. -/
inductive JsonError where
  | cantCastJsonAsFloat
  | cantCastFloatAsJson
  deriving DecidableEq, Repr

/-- Modelled from the spec: `WriteBufferWrapper::write` (not under `src/`)
places the field bytes at the given offset of the buffer. -/
def writeField (buffer : List Nat) (pos : Nat) (bytes : List Nat) : List Nat :=
  buffer.take pos ++ bytes ++ buffer.drop (pos + bytes.length)

/-- Source `<F32 as ExonumJson>::deserialize_field`: cast the JSON value to `f64`
(boxed error when it is not a number), narrow it to `f32` with an `as`
cast, and construct via `F32::new` — which panics on a non-finite result —
before writing the field bytes. -/
def F32.deserializeField (value : JsonValue) (buffer : List Nat) (fromOff toOff : Nat) :
    PResult JsonError (List Nat) :=
  match value.asF64 with
  | none => .err .cantCastJsonAsFloat
  | some n =>
    match F32.new (f64ToF32Bits n) with
    | .ok x => .ok (writeField buffer fromOff (leBytes 4 x.value))
    | _ => .panic

/-! ## Index metadata (`metadata.rs`) -/

/-- The enumeration `IndexType` with its repr(u32) discriminants 1..8 and 255. -/
inductive IndexType where
  | Map
  | List
  | Entry
  | ValueSet
  | KeySet
  | SparseList
  | ProofList
  | ProofMap
  | Unknown
  deriving DecidableEq, Repr

/-- The `u32` discriminant of an `IndexType` (`index_type as u32`). -/
def IndexType.tag : IndexType → Nat
  | .Map => 1
  | .List => 2
  | .Entry => 3
  | .ValueSet => 4
  | .KeySet => 5
  | .SparseList => 6
  | .ProofList => 7
  | .ProofMap => 8
  | .Unknown => 255

/-- Source `IndexType::from_u32` (via the derived primitive decoding): only the nine
declared discriminants decode. -/
def IndexType.fromU32 (n : Nat) : Option IndexType :=
  if n = 1 then some .Map
  else if n = 2 then some .List
  else if n = 3 then some .Entry
  else if n = 4 then some .ValueSet
  else if n = 5 then some .KeySet
  else if n = 6 then some .SparseList
  else if n = 7 then some .ProofList
  else if n = 8 then some .ProofMap
  else if n = 255 then some .Unknown
  else none

/-- The `BinaryAttribute` trait: self-describing auxiliary index state.
`write` appends to the buffer (`io::Write` on a `Vec`); `read` consumes
from the front of a stream, `none` modelling the `unwrap` panic on a
truncated stream. -/
class BinaryAttribute (V : Type) where
  size : V → Nat
  write : V → List Nat → List Nat
  read : List Nat → Option (V × List Nat)

/-- No-op implementation for `()`. -/
instance : BinaryAttribute Unit where
  size _ := 0
  write _ buffer := buffer
  read buffer := some ((), buffer)

instance : NeZero (2 ^ 64) := ⟨by norm_num⟩

/-- Rust `u64` values, carried as `Fin (2 ^ 64)`. -/
abbrev U64 := Fin (2 ^ 64)

instance : Inhabited U64 := ⟨⟨0, by norm_num⟩⟩

/-- The `BinaryAttribute` write of `u64`: append 8 little-endian bytes. -/
def u64Write (v : U64) (buffer : List Nat) : List Nat :=
  buffer ++ leBytes 8 v.val

/-- A `Nat` reduced to the `u64` range. -/
def u64OfNat (x : Nat) : U64 := ⟨x % 2 ^ 64, Nat.mod_lt _ (by norm_num)⟩

/-- The `BinaryAttribute` read of `u64`: consume 8 little-endian bytes from
the stream; `none` models the `unwrap` panic on a truncated stream. -/
def u64Read (buffer : List Nat) : Option (U64 × List Nat) :=
  if 8 ≤ buffer.length then
    some (u64OfNat (natFromLE (buffer.take 8)), buffer.drop 8)
  else none

/-- Implementation of `BinaryAttribute for u64`: 8 little-endian bytes. -/
instance : BinaryAttribute U64 where
  size _ := 8
  write := u64Write
  read := u64Read

/-- The laws a `BinaryAttribute` implementation satisfies (its contract):
`write` appends, writes exactly `size` bytes (a length representable as a
`u32`), and `read` recovers what `write` produced. -/
structure LawfulBinaryAttribute (V : Type) [BinaryAttribute V] : Prop where
  write_append : ∀ (v : V) (acc : List Nat),
    BinaryAttribute.write v acc = acc ++ BinaryAttribute.write v []
  length_write : ∀ v : V, (BinaryAttribute.write v []).length = BinaryAttribute.size v
  size_lt : ∀ v : V, BinaryAttribute.size v < 2 ^ 32
  read_write : ∀ (v : V) (rest : List Nat),
    BinaryAttribute.read (BinaryAttribute.write v [] ++ rest) = some (v, rest)

/-- The persisted unit `IndexMetadata { identifier, index_type, state }`. -/
structure IndexMetadata (V : Type) where
  identifier : Nat
  index_type : IndexType
  state : V
  deriving DecidableEq, Repr

/-- Errors of `IndexMetadata::from_bytes`: a header read hitting the end of
the stream (an `io::Error` propagated by `?`), the `ensure!` failure
`Index state is too short`, and `Unknown index type: n`. -/
inductive FromBytesError where
  | streamTooShort
  | stateTooShort
  | unknownIndexType (n : Nat)
  deriving DecidableEq, Repr

/-- Source `IndexMetadata::to_bytes`: 8-byte LE `identifier`, 4-byte LE type tag,
4-byte LE `state_len` (`state_len as u32`), then the state payload appended
by `BinaryAttribute::write`. -/
def IndexMetadata.toBytes {V : Type} [BinaryAttribute V] (m : IndexMetadata V) : List Nat :=
  BinaryAttribute.write m.state
    (leBytes 8 m.identifier ++ leBytes 4 m.index_type.tag ++
      leBytes 4 (BinaryAttribute.size m.state))

/-- Source `IndexMetadata::from_bytes`: read the three header fields, check
`bytes.len() >= state_len`, read the state from the first `state_len`
remaining bytes (`V::read` panics on a truncated state), then decode the
type tag. -/
def IndexMetadata.fromBytes (V : Type) [BinaryAttribute V] (bytes : List Nat) :
    PResult FromBytesError (IndexMetadata V) :=
  match readLE 8 bytes with
  | none => .err .streamTooShort
  | some (identifier, r1) =>
    match readLE 4 r1 with
    | none => .err .streamTooShort
    | some (tagVal, r2) =>
      match readLE 4 r2 with
      | none => .err .streamTooShort
      | some (stateLen, r3) =>
        if stateLen ≤ r3.length then
          match BinaryAttribute.read (V := V) (r3.take stateLen) with
          | none => .panic
          | some (state, _) =>
            match IndexType.fromU32 tagVal with
            | none => .err (.unknownIndexType tagVal)
            | some t => .ok ⟨identifier, t, state⟩
        else .err .stateTooShort

/-! ## The indexes pool and its store (`metadata.rs`) -/

/-- The pool view over the address INDEXES_POOL_NAME, as the
bytes it holds: the value stored under the unit key `()` (the length
counter) and an association list from index-name keys to raw metadata
bytes (most recent write first). -/
structure Store where
  counterBytes : Option (List Nat)
  entries : List (List Nat × List Nat)
  deriving DecidableEq, Repr

/-- First-match lookup in the entry list. -/
def lookupEntry (name : List Nat) : List (List Nat × List Nat) → Option (List Nat)
  | [] => none
  | (k, v) :: rest => if k = name then some v else lookupEntry name rest

/-- Modelled from the spec: `BinaryValue` decoding of a `u64` view value
(not under `src/`) — 8 little-endian bytes. -/
def u64FromBytes (b : List Nat) : Option Nat :=
  if b.length = 8 then some (natFromLE b % 2 ^ 64) else none

/-- The address `{ name, bytes }` with an optional raw-byte suffix. -/
structure IndexAddress where
  name : List Nat
  addrBytes : Option (List Nat)
  deriving DecidableEq, Repr

/-- Source `IndexAddress::index_name`: `name | 0x00 | bytes` when suffix bytes are
present, plain `name` otherwise (`concat_keys!`). -/
def IndexAddress.indexName (a : IndexAddress) : List Nat :=
  match a.addrBytes with
  | some b => a.name ++ [0] ++ b
  | none => a.name

/-- Modelled from the spec: `IndexMetadata::index_address`, i.e.
`IndexAddress::new().append_bytes(&identifier)` — the resolved address is
anonymous with the raw bytes of the identifier as its discriminating
suffix (the `BinaryKey` encoding of `u64` is not under `src/`; the exact
byte order of the suffix is not relied upon by any claim). -/
def IndexMetadata.indexAddress {V : Type} (m : IndexMetadata V) : IndexAddress :=
  ⟨[], some (leBytes 8 m.identifier)⟩

/-- Source `IndexesPool::len`: the counter value, defaulting to `0` when unset
(`get(&()).unwrap_or_default()`). -/
def IndexesPool.len (s : Store) : Nat :=
  match s.counterBytes.bind u64FromBytes with
  | some n => n
  | none => 0

/-- Source `IndexesPool::set_len`. -/
def IndexesPool.setLen (s : Store) (len : Nat) : Store :=
  { s with counterBytes := some (leBytes 8 len) }

/-- Source `View::put` on the pool view under an index-name key. -/
def IndexesPool.putEntry (s : Store) (name bytes : List Nat) : Store :=
  { s with entries := (name, bytes) :: s.entries }

/-- Source `IndexesPool::index_metadata`: typed `View::get` — a keyed lookup whose
found bytes are decoded with `IndexMetadata::from_bytes` (a decoding
failure panics in the view layer, which is not under `src/`). -/
def IndexesPool.index_metadata (V : Type) [BinaryAttribute V] (s : Store)
    (name : List Nat) : PResult Unit (Option (IndexMetadata V)) :=
  match lookupEntry name s.entries with
  | none => .ok none
  | some bytes =>
    match IndexMetadata.fromBytes V bytes with
    | .ok m => .ok (some m)
    | _ => .panic

/-- Source `IndexesPool::create_index_metadata`: read the counter, build the
record with `identifier = len` and a default state, persist the record
under `name`, persist `len + 1`, return the record. -/
def IndexesPool.createIndexMetadata (V : Type) [BinaryAttribute V] [Inhabited V]
    (s : Store) (name : List Nat) (t : IndexType) : IndexMetadata V × Store :=
  let len := IndexesPool.len s
  let m : IndexMetadata V := ⟨len, t, default⟩
  let s1 := IndexesPool.putEntry s name m.toBytes
  (m, IndexesPool.setLen s1 (len + 1))

/-- The handle `IndexState`: a process-local cache of one metadata record.  The
`index_access` reference is implicit in this model — operations that touch
storage take and return the `Store` explicitly. -/
structure IndexState (V : Type) where
  indexName : List Nat
  cache : IndexMetadata V
  deriving DecidableEq, Repr

/-- Source `IndexState::new`. -/
def IndexState.new {V : Type} (name : List Nat) (m : IndexMetadata V) : IndexState V :=
  ⟨name, m⟩

/-- Source `IndexState::get`: returns the cached state; it does not consult the
store at all. -/
def IndexState.get {V : Type} (st : IndexState V) : V := st.cache.state

/-- Source `IndexState::set`: update the cached state and write the full
re-serialized record through to the pool view under the original index
name. -/
def IndexState.set {V : Type} [BinaryAttribute V] (st : IndexState V) (v : V)
    (s : Store) : IndexState V × Store :=
  let cache := { st.cache with state := v }
  (⟨st.indexName, cache⟩, IndexesPool.putEntry s st.indexName cache.toBytes)

/-- The top-level resolution function `index_metadata`: compute the lookup
key, load existing metadata (asserting, with an abort on failure, that its
stored type equals the requested one) or create fresh metadata, and return
the resolved content address plus a state handle. -/
def index_metadata (V : Type) [BinaryAttribute V] [Inhabited V] (s : Store)
    (addr : IndexAddress) (t : IndexType) :
    PResult Unit ((IndexAddress × IndexState V) × Store) :=
  let name := addr.indexName
  match IndexesPool.index_metadata V s name with
  | .panic => .panic
  | .err e => .err e
  | .ok (some m) =>
    if m.index_type = t then .ok ((m.indexAddress, IndexState.new name m), s)
    else .panic
  | .ok none =>
    let p := IndexesPool.createIndexMetadata V s name t
    .ok ((p.1.indexAddress, IndexState.new name p.1), p.2)

/-! ## Helper lemmas -/

theorem leBytes_length (n v : Nat) : (leBytes n v).length = n := by
  induction n generalizing v with
  | zero => rfl
  | succ n ih => simp [leBytes, ih]

theorem natFromLE_leBytes (n v : Nat) : natFromLE (leBytes n v) = v % 256 ^ n := by
  induction n generalizing v with
  | zero => simp [leBytes, natFromLE, Nat.mod_one]
  | succ n ih =>
      simp only [leBytes, natFromLE, ih]
      rw [pow_succ, mul_comm (256 ^ n) 256]
      calc v % 256 + 256 * (v / 256 % 256 ^ n)
          = v % (256 * 256 ^ n) % 256 + 256 * (v % (256 * 256 ^ n) / 256) := by
            rw [Nat.mod_mul_right_mod, Nat.mod_mul_right_div_self]
        _ = v % (256 * 256 ^ n) := Nat.mod_add_div _ _

/-! ## Claim C1 -/

/-- C1: for every finite `f32` bit pattern, `try_from` succeeds and `get`
returns exactly the given value, and `new` succeeds likewise; for every
non-finite pattern `try_from` is `none` and `new` panics; the same holds
for `F64` over `f64` bit patterns. -/
theorem c1_finite_float_construction (v w : Nat) (hv : v < 2 ^ 32) (hw : w < 2 ^ 64) :
    (f32IsFinite v = true →
      F32.tryFrom v = some ⟨v⟩ ∧ F32.new v = .ok ⟨v⟩ ∧ (F32.mk v).get = v) ∧
    (f32IsFinite v = false → F32.tryFrom v = none ∧ F32.new v = .panic) ∧
    (f64IsFinite w = true →
      F64.tryFrom w = some ⟨w⟩ ∧ F64.new w = .ok ⟨w⟩ ∧ (F64.mk w).get = w) ∧
    (f64IsFinite w = false → F64.tryFrom w = none ∧ F64.new w = .panic) := by
  refine ⟨fun h => ?_, fun h => ?_, fun h => ?_, fun h => ?_⟩ <;>
    simp [F32.tryFrom, F32.new, F32.get, F64.tryFrom, F64.new, F64.get, h]

/-- Witness for C1 at the finite pattern `0` (value `0.0`) and the
non-finite `f32` pattern `0x7FC00000` (a NaN), resp. the `f64` infinity
pattern `0x7FF0000000000000`. -/
theorem c1_witness :
    ((0 : Nat) < 2 ^ 32 ∧ F32.tryFrom 0 = some ⟨0⟩) ∧
    (f32IsFinite 0x7FC00000 = false ∧ F32.new 0x7FC00000 = .panic) ∧
    (f64IsFinite 0x7FF0000000000000 = false ∧ F64.new 0x7FF0000000000000 = .panic) := by
  refine ⟨⟨by decide, ?_⟩, ⟨by decide, ?_⟩, ⟨by decide, ?_⟩⟩
  · exact ((c1_finite_float_construction 0 0 (by decide) (by decide)).1 (by decide)).1
  · exact ((c1_finite_float_construction 0x7FC00000 0 (by decide) (by decide)).2.1
      (by decide)).2
  · exact ((c1_finite_float_construction 0 0x7FF0000000000000 (by decide)
      (by decide)).2.2.2 (by decide)).2

theorem readLE_append (l rest : List Nat) (n : Nat) (h : l.length = n) :
    readLE n (l ++ rest) = some (natFromLE l, rest) := by
  have hle : n ≤ (l ++ rest).length := by simp [h.symm]
  rw [readLE, if_pos hle, List.take_left' h, List.drop_left' h]

theorem IndexType.fromU32_tag (t : IndexType) : IndexType.fromU32 t.tag = some t := by
  cases t <;> rfl

theorem IndexType.tag_lt (t : IndexType) : t.tag < 256 ^ 4 := by
  cases t <;> decide

theorem IndexType.fromU32_eq_none {n : Nat} (h : ¬(1 ≤ n ∧ n ≤ 8 ∨ n = 255)) :
    IndexType.fromU32 n = none := by
  unfold IndexType.fromU32
  split_ifs <;> first | rfl | omega

theorem lawfulUnit : LawfulBinaryAttribute Unit where
  write_append v acc := by simp [BinaryAttribute.write]
  length_write v := rfl
  size_lt v := by norm_num [BinaryAttribute.size]
  read_write v rest := rfl

theorem u64OfNat_natFromLE_leBytes (v : U64) :
    u64OfNat (natFromLE (leBytes 8 v.val)) = v := by
  apply Fin.ext
  show natFromLE (leBytes 8 v.val) % 2 ^ 64 = v.val
  have h8 : (256 : Nat) ^ 8 = 2 ^ 64 := by norm_num
  rw [natFromLE_leBytes, h8, Nat.mod_mod_of_dvd _ (dvd_refl _),
    Nat.mod_eq_of_lt v.isLt]

theorem lawfulU64 : LawfulBinaryAttribute U64 where
  write_append v acc := rfl
  length_write v := by
    show (u64Write v []).length = 8
    rw [u64Write, List.nil_append, leBytes_length]
  size_lt v := by norm_num [BinaryAttribute.size]
  read_write v rest := by
    show u64Read (u64Write v [] ++ rest) = some (v, rest)
    have hlen : (leBytes 8 v.val).length = 8 := leBytes_length 8 v.val
    have hge : 8 ≤ (leBytes 8 v.val ++ rest).length := by
      rw [List.length_append, hlen]; omega
    have harg : u64Write v [] ++ rest = leBytes 8 v.val ++ rest := rfl
    rw [harg, u64Read, if_pos hge, List.take_left' hlen, List.drop_left' hlen,
      u64OfNat_natFromLE_leBytes]

theorem fromBytes_toBytes {V : Type} [BinaryAttribute V] (law : LawfulBinaryAttribute V)
    (m : IndexMetadata V) (hid : m.identifier < 2 ^ 64) :
    IndexMetadata.fromBytes V m.toBytes = .ok m := by
  obtain ⟨id, ty, st⟩ := m
  have hid' : id < 2 ^ 64 := hid
  have hW : (BinaryAttribute.write st ([] : List Nat)).length = BinaryAttribute.size st :=
    law.length_write st
  have hbytes : (IndexMetadata.mk id ty st : IndexMetadata V).toBytes =
      leBytes 8 id ++ (leBytes 4 ty.tag ++ (leBytes 4 (BinaryAttribute.size st) ++
        BinaryAttribute.write st [])) := by
    simp only [IndexMetadata.toBytes]
    rw [law.write_append]
    simp [List.append_assoc]
  have r1 : readLE 8 (leBytes 8 id ++ (leBytes 4 ty.tag ++
      (leBytes 4 (BinaryAttribute.size st) ++ BinaryAttribute.write st []))) =
      some (natFromLE (leBytes 8 id), leBytes 4 ty.tag ++
        (leBytes 4 (BinaryAttribute.size st) ++ BinaryAttribute.write st [])) :=
    readLE_append _ _ _ (leBytes_length 8 id)
  have r2 : readLE 4 (leBytes 4 ty.tag ++
      (leBytes 4 (BinaryAttribute.size st) ++ BinaryAttribute.write st [])) =
      some (natFromLE (leBytes 4 ty.tag),
        leBytes 4 (BinaryAttribute.size st) ++ BinaryAttribute.write st []) :=
    readLE_append _ _ _ (leBytes_length 4 _)
  have r3 : readLE 4 (leBytes 4 (BinaryAttribute.size st) ++ BinaryAttribute.write st []) =
      some (natFromLE (leBytes 4 (BinaryAttribute.size st)), BinaryAttribute.write st []) :=
    readLE_append _ _ _ (leBytes_length 4 _)
  have hidv : natFromLE (leBytes 8 id) = id := by
    have h8 : (256 : Nat) ^ 8 = 2 ^ 64 := by norm_num
    rw [natFromLE_leBytes, h8]
    exact Nat.mod_eq_of_lt hid'
  have htagv : natFromLE (leBytes 4 ty.tag) = ty.tag := by
    rw [natFromLE_leBytes]
    exact Nat.mod_eq_of_lt (IndexType.tag_lt ty)
  have hsizev : natFromLE (leBytes 4 (BinaryAttribute.size st)) = BinaryAttribute.size st := by
    have h4 : (256 : Nat) ^ 4 = 2 ^ 32 := by norm_num
    rw [natFromLE_leBytes, h4]
    exact Nat.mod_eq_of_lt (law.size_lt st)
  have hif : BinaryAttribute.size st ≤ (BinaryAttribute.write st ([] : List Nat)).length :=
    le_of_eq hW.symm
  have htake : (BinaryAttribute.write st ([] : List Nat)).take (BinaryAttribute.size st) =
      BinaryAttribute.write st [] := by
    rw [← hW]
    exact List.take_length _
  have hreadst : BinaryAttribute.read (V := V) (BinaryAttribute.write st []) =
      some (st, []) := by
    have h := law.read_write st []
    rwa [List.append_nil] at h
  simp only [IndexMetadata.fromBytes, hbytes, r1, r2, r3, hidv, htagv, hsizev, hif,
    htake, hreadst, IndexType.fromU32_tag, if_true]

theorem len_setLen (s : Store) (len : Nat) (h : len < 2 ^ 64) :
    IndexesPool.len (IndexesPool.setLen s len) = len := by
  have h8 : (256 : Nat) ^ 8 = 2 ^ 64 := by norm_num
  simp only [IndexesPool.len, IndexesPool.setLen, Option.some_bind, u64FromBytes,
    leBytes_length, if_pos, natFromLE_leBytes, h8, Nat.mod_mod_of_dvd _ (dvd_refl _)]
  rw [Nat.mod_eq_of_lt h]

theorem IndexesPool.len_lt (s : Store) : IndexesPool.len s < 2 ^ 64 := by
  rcases s with ⟨cb, es⟩
  rcases cb with _ | b
  · simp [IndexesPool.len]
  · simp only [IndexesPool.len, Option.some_bind, u64FromBytes]
    by_cases h : b.length = 8
    · rw [if_pos h]
      exact Nat.mod_lt _ (by norm_num)
    · rw [if_neg h]
      norm_num

theorem f32CheckRaw_eq (buffer : List Nat) (lo hi seg : Nat)
    (h4 : hi - lo = 4) (hle : lo ≤ hi) (hlen : hi ≤ buffer.length) :
    F32.checkRaw buffer lo hi seg =
      if f32IsFinite (natFromLE ((buffer.drop lo).take 4)) then .ok seg
      else .err (.unsupportedFloat lo (f32ToF64Bits (natFromLE ((buffer.drop lo).take 4)))) := by
  have hslice : ((buffer.drop lo).take 4).length = 4 := by
    rw [List.length_take, List.length_drop]
    omega
  simp only [F32.checkRaw, h4]
  rw [if_pos ⟨hle, hlen⟩, if_pos hslice.symm.le, List.take_take]
  simp [Nat.min_self]

theorem f64CheckRaw_eq (buffer : List Nat) (lo hi seg : Nat)
    (h8 : hi - lo = 8) (hle : lo ≤ hi) (hlen : hi ≤ buffer.length) :
    F64.checkRaw buffer lo hi seg =
      if f64IsFinite (natFromLE ((buffer.drop lo).take 8)) then .ok seg
      else .err (.unsupportedFloat lo (natFromLE ((buffer.drop lo).take 8))) := by
  have hslice : ((buffer.drop lo).take 8).length = 8 := by
    rw [List.length_take, List.length_drop]
    omega
  simp only [F64.checkRaw, h8]
  rw [if_pos ⟨hle, hlen⟩, if_pos hslice.symm.le, List.take_take]
  simp [Nat.min_self]

/-! ## Claim C2 -/

/-- C2: for every buffer and offsets delimiting a range of the field width
that lies within the buffer, `check` on a non-finite decoded float returns
`UnsupportedFloat` carrying exactly the `from` offset passed in and the
decoded value (widened to `f64` bits for `F32`), and `check` on a finite
decoded float returns `Ok` with the `latest_segment` argument unchanged —
in either build configuration. -/
theorem c2_check_reports_position_and_value :
    (∀ (dbg : Bool) (buffer : List Nat) (lo hi seg : Nat),
      hi - lo = 4 → lo ≤ hi → hi ≤ buffer.length →
      F32.check dbg buffer lo hi seg =
        if f32IsFinite (natFromLE ((buffer.drop lo).take 4)) then .ok seg
        else .err (.unsupportedFloat lo
          (f32ToF64Bits (natFromLE ((buffer.drop lo).take 4))))) ∧
    (∀ (dbg : Bool) (buffer : List Nat) (lo hi seg : Nat),
      hi - lo = 8 → lo ≤ hi → hi ≤ buffer.length →
      F64.check dbg buffer lo hi seg =
        if f64IsFinite (natFromLE ((buffer.drop lo).take 8)) then .ok seg
        else .err (.unsupportedFloat lo (natFromLE ((buffer.drop lo).take 8)))) := by
  constructor
  · intro dbg buffer lo hi seg h4 hle hlen
    have h := f32CheckRaw_eq buffer lo hi seg h4 hle hlen
    cases dbg
    · simpa [F32.check] using h
    · simp [F32.check, checkedSub, hle, h4, h]
  · intro dbg buffer lo hi seg h8 hle hlen
    have h := f64CheckRaw_eq buffer lo hi seg h8 hle hlen
    cases dbg
    · simpa [F64.check] using h
    · simp [F64.check, checkedSub, hle, h8, h]

/-- Witness for C2: the four bytes of `+inf : f32` are rejected with the
position passed in and the widened value, and eight zero bytes (`0.0`)
validate, returning the `latest_segment` argument. -/
theorem c2_witness :
    F32.check true [0, 0, 128, 127] 0 4 9 =
      .err (.unsupportedFloat 0 (2047 * 2 ^ 52)) ∧
    F64.check true (List.replicate 8 0) 0 8 3 = .ok 3 := by
  constructor
  · rw [c2_check_reports_position_and_value.1 true [0, 0, 128, 127] 0 4 9
      (by decide) (by decide) (by decide)]
    decide
  · rw [c2_check_reports_position_and_value.2 true (List.replicate 8 0) 0 8 3
      (by decide) (by decide) (by decide)]
    decide

/-! ## Claim C9 (corrected) -/

/-- C9 counterexample: with debug assertions disabled (a release build),
`F64::check` accepts a 16-byte range — twice the 8-byte field width — and
returns `Ok`, proceeding exactly as if the width were correct (it decodes
the first 8 bytes).  The claim that the width `to - from == field_size()`
is checked before decoding on every call is therefore false as stated. -/
theorem c9_counterexample :
    (16 - 0 ≠ 8) ∧ F64.check false (List.replicate 16 0) 0 16 7 = .ok 7 := by
  decide

/-- C9 amended: with debug assertions enabled, `check` does validate
`to - from == field_size()` before the bytes are decoded — a call with a
mismatched width never returns `Ok` (the checked subtraction fails
explicitly when `to < from`, and the `debug_assert_eq` aborts otherwise);
with debug assertions disabled the width is not validated. -/
theorem c9_amended_width_validated_in_debug :
    (∀ (buffer : List Nat) (lo hi seg : Nat), hi - lo ≠ 4 →
      ∀ r, F32.check true buffer lo hi seg ≠ .ok r) ∧
    (∀ (buffer : List Nat) (lo hi seg : Nat), hi - lo ≠ 8 →
      ∀ r, F64.check true buffer lo hi seg ≠ .ok r) := by
  constructor
  · intro buffer lo hi seg hne r
    simp only [F32.check, checkedSub, if_true]
    by_cases hle : lo ≤ hi
    · simp [hle, hne]
    · simp [hle]
  · intro buffer lo hi seg hne r
    simp only [F64.check, checkedSub, if_true]
    by_cases hle : lo ≤ hi
    · simp [hle, hne]
    · simp [hle]

/-- Witness for the amended C9 at a concrete mismatched width. -/
theorem c9_amended_witness :
    (9 - 0 ≠ 4) ∧ F32.check true [] 0 9 3 ≠ .ok 3 :=
  ⟨by decide, c9_amended_width_validated_in_debug.1 [] 0 9 3 (by decide) 3⟩

/-! ## Claim C10 -/

/-- C10: the finite `f64` value `2 ^ 200` (bit pattern `1223 * 2 ^ 52`)
exceeds the finite `f32` range, the `as f32` cast yields infinity, and
`F32` JSON field deserialization on that number panics inside `F32::new`
instead of returning the boxed error; the boxed cast error is returned
exactly when the JSON value is not a number at all. -/
theorem c10_json_overflow_panics :
    f64IsFinite (1223 * 2 ^ 52) = true ∧
    f32IsFinite (f64ToF32Bits (1223 * 2 ^ 52)) = false ∧
    F32.deserializeField (.number (1223 * 2 ^ 52)) (List.replicate 4 0) 0 4 = .panic ∧
    (∀ (v : JsonValue) (buffer : List Nat) (lo hi : Nat),
      (∃ e, F32.deserializeField v buffer lo hi = .err e) ↔ v.asF64 = none) := by
  refine ⟨by decide, by decide, by decide, fun v buffer lo hi => ?_⟩
  cases v with
  | nonNumber => exact ⟨fun _ => rfl, fun _ => ⟨.cantCastJsonAsFloat, rfl⟩⟩
  | number b =>
    constructor
    · rintro ⟨e, he⟩
      exfalso
      simp only [F32.deserializeField, JsonValue.asF64] at he
      cases hn : F32.new (f64ToF32Bits b) <;> rw [hn] at he <;> simp at he
    · intro h
      exact absurd h (by simp [JsonValue.asF64])

/-- Witness for C10: the overflowing number panics. -/
theorem c10_witness :
    F32.deserializeField (.number (1223 * 2 ^ 52)) (List.replicate 4 0) 0 4 = .panic :=
  c10_json_overflow_panics.2.2.1

theorem index_metadata_eq (V : Type) [inst : BinaryAttribute V] [instI : Inhabited V]
    (s : Store) (addr : IndexAddress) (t : IndexType) :
    index_metadata V s addr t =
      match IndexesPool.index_metadata V s addr.indexName with
      | .panic => .panic
      | .err e => .err e
      | .ok (some m) =>
        if m.index_type = t then
          .ok ((m.indexAddress, IndexState.new addr.indexName m), s)
        else .panic
      | .ok none =>
        .ok (((IndexesPool.createIndexMetadata V s addr.indexName t).1.indexAddress,
          IndexState.new addr.indexName
            (IndexesPool.createIndexMetadata V s addr.indexName t).1),
          (IndexesPool.createIndexMetadata V s addr.indexName t).2) := rfl

theorem pool_get_after_create (V : Type) [inst : BinaryAttribute V] [instI : Inhabited V]
    (law : LawfulBinaryAttribute V) (s : Store) (name : List Nat) (t : IndexType) :
    IndexesPool.index_metadata V (IndexesPool.createIndexMetadata V s name t).2 name =
      .ok (some (IndexesPool.createIndexMetadata V s name t).1) := by
  have hlt : (IndexesPool.createIndexMetadata V s name t).1.identifier < 2 ^ 64 :=
    IndexesPool.len_lt s
  have hfb := fromBytes_toBytes law _ hlt
  have hlook : lookupEntry name (IndexesPool.createIndexMetadata V s name t).2.entries =
      some (IndexesPool.createIndexMetadata V s name t).1.toBytes := by
    simp [IndexesPool.createIndexMetadata, IndexesPool.setLen, IndexesPool.putEntry,
      lookupEntry]
  simp only [IndexesPool.index_metadata, hlook, hfb]

/-! ## Claim C3 -/

/-- C3: resolving the same address with the same type twice is idempotent —
if the first call returns address `a1`, handle `h1` and store `s1`, the
second call on `s1` returns the very same address, a handle with the same
cached metadata (in particular the same `identifier`), and leaves the store
— hence the pool length counter — unchanged. -/
theorem c3_resolution_idempotent (V : Type) [inst : BinaryAttribute V]
    [instI : Inhabited V] (law : LawfulBinaryAttribute V) (s : Store)
    (addr : IndexAddress) (t : IndexType)
    (a1 : IndexAddress) (h1 : IndexState V) (s1 : Store)
    (hc : index_metadata V s addr t = .ok ((a1, h1), s1)) :
    index_metadata V s1 addr t = .ok ((a1, h1), s1) := by
  rw [index_metadata_eq] at hc
  cases hp : IndexesPool.index_metadata V s addr.indexName with
  | panic => rw [hp] at hc; simp at hc
  | err e => rw [hp] at hc; simp at hc
  | ok om =>
    rw [hp] at hc
    cases om with
    | some m =>
      simp only [] at hc
      by_cases hm : m.index_type = t
      · rw [if_pos hm] at hc
        simp only [PResult.ok.injEq, Prod.mk.injEq] at hc
        obtain ⟨⟨ha, hh⟩, hs⟩ := hc
        subst ha; subst hh; subst hs
        rw [index_metadata_eq, hp]
        simp only []
        rw [if_pos hm]
      · rw [if_neg hm] at hc
        exact absurd hc (by simp)
    | none =>
      simp only [PResult.ok.injEq, Prod.mk.injEq] at hc
      obtain ⟨⟨ha, hh⟩, hs⟩ := hc
      subst ha; subst hh; subst hs
      rw [index_metadata_eq, pool_get_after_create V law s addr.indexName t]
      simp only []
      exact if_pos rfl

/-- Witness for C3: resolving the name `[97]` as a `Map` a second time, on
the store produced by the first (creating) resolution, returns the same
identifier-0 metadata and the same store. -/
theorem c3_witness :
    index_metadata Unit
        ⟨some (leBytes 8 1),
          [([97], IndexMetadata.toBytes (⟨0, .Map, ()⟩ : IndexMetadata Unit))]⟩
        ⟨[97], none⟩ .Map =
      .ok ((⟨[], some (leBytes 8 0)⟩, ⟨[97], ⟨0, .Map, ()⟩⟩),
        ⟨some (leBytes 8 1),
          [([97], IndexMetadata.toBytes (⟨0, .Map, ()⟩ : IndexMetadata Unit))]⟩) :=
  c3_resolution_idempotent Unit lawfulUnit ⟨none, []⟩ ⟨[97], none⟩ .Map
    ⟨[], some (leBytes 8 0)⟩ ⟨[97], ⟨0, .Map, ()⟩⟩
    ⟨some (leBytes 8 1),
      [([97], IndexMetadata.toBytes (⟨0, .Map, ()⟩ : IndexMetadata Unit))]⟩
    (by decide)

/-! ## Claim C4 -/

/-- C4: resolving a name that already holds metadata of a different
`IndexType` (for example first as `Map`, then as `List`) aborts abnormally
on the second call (the `assert_eq!` panic), rather than returning an error
value or coercing the type. -/
theorem c4_type_mismatch_aborts (V : Type) [inst : BinaryAttribute V]
    [instI : Inhabited V] (law : LawfulBinaryAttribute V) (s : Store)
    (addr : IndexAddress) (t t' : IndexType)
    (a1 : IndexAddress) (h1 : IndexState V) (s1 : Store)
    (hne : t' ≠ t)
    (hc : index_metadata V s addr t = .ok ((a1, h1), s1)) :
    index_metadata V s1 addr t' = .panic := by
  rw [index_metadata_eq] at hc
  cases hp : IndexesPool.index_metadata V s addr.indexName with
  | panic => rw [hp] at hc; simp at hc
  | err e => rw [hp] at hc; simp at hc
  | ok om =>
    rw [hp] at hc
    cases om with
    | some m =>
      simp only [] at hc
      by_cases hm : m.index_type = t
      · rw [if_pos hm] at hc
        simp only [PResult.ok.injEq, Prod.mk.injEq] at hc
        obtain ⟨⟨ha, hh⟩, hs⟩ := hc
        subst ha; subst hh; subst hs
        rw [index_metadata_eq, hp]
        simp only []
        rw [if_neg (by rw [hm]; exact fun hx => hne hx.symm)]
      · rw [if_neg hm] at hc
        exact absurd hc (by simp)
    | none =>
      simp only [PResult.ok.injEq, Prod.mk.injEq] at hc
      obtain ⟨⟨ha, hh⟩, hs⟩ := hc
      subst ha; subst hh; subst hs
      rw [index_metadata_eq, pool_get_after_create V law s addr.indexName t]
      simp only []
      rw [if_neg ?hng]
      case hng =>
        have hcr : (IndexesPool.createIndexMetadata V s addr.indexName t).1.index_type =
            t := rfl
        rw [hcr]
        exact fun hx => hne hx.symm

/-- Witness for C4: the name `[97]`, created as a `Map`, panics when
resolved as a `List`. -/
theorem c4_witness :
    index_metadata Unit
        ⟨some (leBytes 8 1),
          [([97], IndexMetadata.toBytes (⟨0, .Map, ()⟩ : IndexMetadata Unit))]⟩
        ⟨[97], none⟩ .List = .panic :=
  c4_type_mismatch_aborts Unit lawfulUnit ⟨none, []⟩ ⟨[97], none⟩ .Map .List
    ⟨[], some (leBytes 8 0)⟩ ⟨[97], ⟨0, .Map, ()⟩⟩
    ⟨some (leBytes 8 1),
      [([97], IndexMetadata.toBytes (⟨0, .Map, ()⟩ : IndexMetadata Unit))]⟩
    (by decide) (by decide)

/-! ## Claim C5 -/

/-- C5: for every metadata record whose state satisfies the Binary
Attribute Contract, `from_bytes (to_bytes m)` succeeds and returns exactly
`m` (for any `u64`-representable identifier), with `to_bytes` laying out
the 8-byte LE identifier, 4-byte LE type tag, 4-byte LE state length, then
the state bytes; in particular the record
`{identifier: 12, index_type: ProofList, state: 16u64}` round-trips. -/
theorem c5_metadata_roundtrip :
    (∀ (V : Type) [inst : BinaryAttribute V],
      ∀ (law : LawfulBinaryAttribute V) (m : IndexMetadata V),
      m.identifier < 2 ^ 64 →
      IndexMetadata.fromBytes V m.toBytes = .ok m ∧
      m.toBytes = leBytes 8 m.identifier ++ leBytes 4 m.index_type.tag ++
        leBytes 4 (BinaryAttribute.size m.state) ++ BinaryAttribute.write m.state []) ∧
    IndexMetadata.fromBytes U64
        (IndexMetadata.toBytes (⟨12, .ProofList, (16 : U64)⟩ : IndexMetadata U64)) =
      .ok ⟨12, .ProofList, (16 : U64)⟩ := by
  constructor
  · intro V inst law m hid
    refine ⟨fromBytes_toBytes law m hid, ?_⟩
    rw [IndexMetadata.toBytes, law.write_append]
  · decide

/-- Witness for C5 at the concrete record of the claim. -/
theorem c5_witness :
    ((⟨12, .ProofList, (16 : U64)⟩ : IndexMetadata U64).identifier < 2 ^ 64) ∧
    IndexMetadata.fromBytes U64
        (IndexMetadata.toBytes (⟨12, .ProofList, (16 : U64)⟩ : IndexMetadata U64)) =
      .ok ⟨12, .ProofList, (16 : U64)⟩ :=
  ⟨by decide,
    (c5_metadata_roundtrip.1 U64 lawfulU64 ⟨12, .ProofList, (16 : U64)⟩ (by decide)).1⟩

/-! ## Claim C6 (corrected) -/

/-- C6 counterexample: the claim as stated is false, because in
`from_bytes` the state is read (`let state = V::read(&mut state_bytes)`)
before the type tag is decoded, and the `u64` read unwraps — a panic —
when fewer than 8 state bytes are available.  Concretely, for `V = u64`
and a header declaring `state_len = 0`: with tag `42` the call aborts in
the unwrap instead of failing with the `Unknown index type: 42` error,
and with the reserved tag `255` it likewise aborts instead of decoding
to the `Unknown` variant. -/
theorem c6_counterexample :
    IndexMetadata.fromBytes U64
        (List.replicate 8 0 ++ [42, 0, 0, 0] ++ [0, 0, 0, 0] ++ []) = .panic ∧
    IndexMetadata.fromBytes U64
        (List.replicate 8 0 ++ [255, 0, 0, 0] ++ [0, 0, 0, 0] ++ []) = .panic := by
  decide

/-- C6 amended: `from_bytes` fails with the `Index state is too short`
error whenever fewer bytes remain after the 16-byte header than the
declared state length (for every state type); and — provided the declared
state bytes parse under the state type's read, which runs before the tag
check and panics otherwise — it fails with `Unknown index type: N`
whenever the decoded 4-byte tag is not one of `{1..8, 255}`, and the
reserved tag `255` decodes successfully to the explicit `Unknown`
variant. -/
theorem c6_from_bytes_validation :
    (∀ (V : Type) [inst : BinaryAttribute V],
      ∀ (hd8 hd4a hd4b tail : List Nat),
      hd8.length = 8 → hd4a.length = 4 → hd4b.length = 4 →
      tail.length < natFromLE hd4b →
      IndexMetadata.fromBytes V (hd8 ++ hd4a ++ hd4b ++ tail) = .err .stateTooShort) ∧
    (∀ (V : Type) [inst : BinaryAttribute V],
      ∀ (hd8 hd4a hd4b tail : List Nat) (st : V) (rest : List Nat),
      hd8.length = 8 → hd4a.length = 4 → hd4b.length = 4 →
      natFromLE hd4b ≤ tail.length →
      BinaryAttribute.read (tail.take (natFromLE hd4b)) = some (st, rest) →
      ¬(1 ≤ natFromLE hd4a ∧ natFromLE hd4a ≤ 8 ∨ natFromLE hd4a = 255) →
      IndexMetadata.fromBytes V (hd8 ++ hd4a ++ hd4b ++ tail) =
        .err (.unknownIndexType (natFromLE hd4a))) ∧
    (∀ (V : Type) [inst : BinaryAttribute V],
      ∀ (hd8 hd4b tail : List Nat) (st : V) (rest : List Nat),
      hd8.length = 8 → hd4b.length = 4 →
      natFromLE hd4b ≤ tail.length →
      BinaryAttribute.read (tail.take (natFromLE hd4b)) = some (st, rest) →
      IndexMetadata.fromBytes V (hd8 ++ [255, 0, 0, 0] ++ hd4b ++ tail) =
        .ok ⟨natFromLE hd8, .Unknown, st⟩) := by
  refine ⟨?_, ?_, ?_⟩
  · intro V inst hd8 hd4a hd4b tail hl8 hl4a hl4b hlt
    have hassoc : hd8 ++ hd4a ++ hd4b ++ tail = hd8 ++ (hd4a ++ (hd4b ++ tail)) := by
      simp [List.append_assoc]
    have r1 := readLE_append hd8 (hd4a ++ (hd4b ++ tail)) 8 hl8
    have r2 := readLE_append hd4a (hd4b ++ tail) 4 hl4a
    have r3 := readLE_append hd4b tail 4 hl4b
    have hig : ¬(natFromLE hd4b ≤ tail.length) := by omega
    simp only [IndexMetadata.fromBytes, hassoc, r1, r2, r3]
    rw [if_neg hig]
  · intro V inst hd8 hd4a hd4b tail st rest hl8 hl4a hl4b hle hread htag
    have hassoc : hd8 ++ hd4a ++ hd4b ++ tail = hd8 ++ (hd4a ++ (hd4b ++ tail)) := by
      simp [List.append_assoc]
    have r1 := readLE_append hd8 (hd4a ++ (hd4b ++ tail)) 8 hl8
    have r2 := readLE_append hd4a (hd4b ++ tail) 4 hl4a
    have r3 := readLE_append hd4b tail 4 hl4b
    simp only [IndexMetadata.fromBytes, hassoc, r1, r2, r3]
    rw [if_pos hle, hread]
    simp only []
    rw [IndexType.fromU32_eq_none htag]
  · intro V inst hd8 hd4b tail st rest hl8 hl4b hle hread
    have hassoc : hd8 ++ [255, 0, 0, 0] ++ hd4b ++ tail =
        hd8 ++ ([255, 0, 0, 0] ++ (hd4b ++ tail)) := by
      simp [List.append_assoc]
    have r1 := readLE_append hd8 ([255, 0, 0, 0] ++ (hd4b ++ tail)) 8 hl8
    have r2 := readLE_append [255, 0, 0, 0] (hd4b ++ tail) 4 (by decide)
    have r3 := readLE_append hd4b tail 4 hl4b
    have h255 : natFromLE [255, 0, 0, 0] = 255 := by decide
    simp only [IndexMetadata.fromBytes, hassoc, r1, r2, r3, h255]
    rw [if_pos hle, hread]
    simp only []
    rfl

/-- Witness for C6: a declared state length of 5 with no state bytes is
rejected as too short; the unknown tag 42 is rejected by name; the
reserved tag 255 decodes to `Unknown`. -/
theorem c6_witness :
    IndexMetadata.fromBytes Unit
        (List.replicate 8 0 ++ [1, 0, 0, 0] ++ [5, 0, 0, 0] ++ []) =
      .err .stateTooShort ∧
    IndexMetadata.fromBytes Unit
        (List.replicate 8 0 ++ [42, 0, 0, 0] ++ [0, 0, 0, 0] ++ []) =
      .err (.unknownIndexType 42) ∧
    IndexMetadata.fromBytes Unit
        (List.replicate 8 0 ++ [255, 0, 0, 0] ++ [0, 0, 0, 0] ++ []) =
      .ok ⟨0, .Unknown, ()⟩ := by
  refine ⟨c6_from_bytes_validation.1 Unit (List.replicate 8 0) [1, 0, 0, 0] [5, 0, 0, 0]
      [] (by decide) (by decide) (by decide) (by decide), ?_, ?_⟩
  · have h := c6_from_bytes_validation.2.1 Unit (List.replicate 8 0) [42, 0, 0, 0]
      [0, 0, 0, 0] [] () [] (by decide) (by decide) (by decide) (by decide) rfl
      (by decide)
    simpa using h
  · have h := c6_from_bytes_validation.2.2 Unit (List.replicate 8 0) [0, 0, 0, 0]
      [] () [] (by decide) (by decide) (by decide) rfl
    simpa using h

/-! ## Claim C7 -/

/-- C7: `create_index_metadata` reads the current pool counter (0 when no
counter is stored), returns a record whose identifier equals that counter,
whose type is the requested one and whose state is the default value, and
leaves the store with the record persisted under the given name and the
counter persisted as `counter + 1` (stated for counters below the `u64`
bound, which the pool invariant keeps). -/
theorem c7_create_index_metadata (V : Type) [inst : BinaryAttribute V]
    [instI : Inhabited V] (s : Store) (name : List Nat) (t : IndexType)
    (hlen : IndexesPool.len s + 1 < 2 ^ 64) :
    (IndexesPool.createIndexMetadata V s name t).1.identifier = IndexesPool.len s ∧
    (s.counterBytes = none → (IndexesPool.createIndexMetadata V s name t).1.identifier = 0) ∧
    (IndexesPool.createIndexMetadata V s name t).1.state = (default : V) ∧
    (IndexesPool.createIndexMetadata V s name t).1.index_type = t ∧
    lookupEntry name (IndexesPool.createIndexMetadata V s name t).2.entries =
      some (IndexesPool.createIndexMetadata V s name t).1.toBytes ∧
    IndexesPool.len (IndexesPool.createIndexMetadata V s name t).2 =
      IndexesPool.len s + 1 := by
  refine ⟨rfl, fun h => ?_, rfl, rfl, ?_, ?_⟩
  · show IndexesPool.len s = 0
    simp [IndexesPool.len, h]
  · show lookupEntry name ((name, (IndexesPool.createIndexMetadata V s name t).1.toBytes)
        :: s.entries) = _
    simp [lookupEntry]
  · show IndexesPool.len (IndexesPool.setLen _ (IndexesPool.len s + 1)) =
      IndexesPool.len s + 1
    exact len_setLen _ _ hlen

/-- Witness for C7 on the empty store: the first record gets identifier 0
and the counter becomes 1. -/
theorem c7_witness :
    (IndexesPool.len ⟨none, []⟩ + 1 < 2 ^ 64) ∧
    (IndexesPool.createIndexMetadata Unit ⟨none, []⟩ [99] .List).1.identifier = 0 ∧
    IndexesPool.len (IndexesPool.createIndexMetadata Unit ⟨none, []⟩ [99] .List).2 =
      IndexesPool.len ⟨none, []⟩ + 1 :=
  ⟨by decide,
    (c7_create_index_metadata Unit ⟨none, []⟩ [99] .List (by decide)).2.1 rfl,
    (c7_create_index_metadata Unit ⟨none, []⟩ [99] .List (by decide)).2.2.2.2.2⟩

/-! ## Claim C8 -/

/-- C8: `get` on a state handle returns the cached state — the value
loaded at construction (`IndexState.new`) or the value most recently
written with `set` on that same handle; `get` takes no store argument at
all, so a pre-existing handle keeps observing its originally cached value
after another handle writes (no cross-handle refresh); and after `set v`,
a freshly constructed handle over the same name — built by the resolution
function on the written-through store — observes `v` via `get`. -/
theorem c8_state_handle_cache (V : Type) [inst : BinaryAttribute V]
    [instI : Inhabited V] (law : LawfulBinaryAttribute V) (s : Store)
    (h : IndexState V) (v : V) (addr : IndexAddress) (t : IndexType)
    (hname : addr.indexName = h.indexName)
    (htype : h.cache.index_type = t)
    (hid : h.cache.identifier < 2 ^ 64) :
    ((h.set v s).1.get = v) ∧
    (∀ (name : List Nat) (m : IndexMetadata V), (IndexState.new name m).get = m.state) ∧
    (∀ h0 : IndexState V, h0.get = h0.cache.state) ∧
    (index_metadata V (h.set v s).2 addr t =
      .ok ((({ h.cache with state := v } : IndexMetadata V).indexAddress,
            IndexState.new h.indexName { h.cache with state := v }), (h.set v s).2) ∧
      (IndexState.new h.indexName { h.cache with state := v }).get = v) := by
  refine ⟨rfl, fun name m => rfl, fun h0 => rfl, ?_, rfl⟩
  have hget : IndexesPool.index_metadata V (h.set v s).2 addr.indexName =
      .ok (some ({ h.cache with state := v } : IndexMetadata V)) := by
    rw [hname]
    have hlook : lookupEntry h.indexName ((h.set v s).2).entries =
        some ({ h.cache with state := v } : IndexMetadata V).toBytes := by
      simp [IndexState.set, IndexesPool.putEntry, lookupEntry]
    simp only [IndexesPool.index_metadata, hlook,
      fromBytes_toBytes law ({ h.cache with state := v } : IndexMetadata V) hid]
  rw [index_metadata_eq, hget]
  simp only []
  rw [if_pos (show ({ h.cache with state := v } : IndexMetadata V).index_type = t from
    htype), hname]

/-- Witness for C8: after `set 5` on a handle for the name `[98]`, the
handle itself reads 5. -/
theorem c8_witness :
    ((⟨[98], ⟨0, .List, (0 : U64)⟩⟩ : IndexState U64).set 5 ⟨none, []⟩).1.get = 5 :=
  (c8_state_handle_cache U64 lawfulU64 ⟨none, []⟩ ⟨[98], ⟨0, .List, (0 : U64)⟩⟩ 5
    ⟨[98], none⟩ .List rfl rfl (by decide)).1
